import Mathlib

/-!
Verification development for the document-ingestion backend.

The definitions below are a shallow embedding of the two modules that the
claims concern:

- app/utils/file_processing.py : text extraction (extract_text_from_file),
  the ingestion pipeline (process_file) and reprocessing (re_process_file).
  Database state (File, Chunk, Embedding rows seen through the SQLAlchemy
  session) is modelled as explicit lists of records; exceptions are modelled
  with Except, where the error value carries the session state at the point
  the exception was raised.  External collaborators that the pipeline only
  calls through an interface (the langchain text splitter, tiktoken, and
  get_embedding as seen from the pipeline) are oracle functions packaged in
  a World record, as is the commit-success oracle of the database.
  Logging calls, and the successful_embeddings / failed_embeddings counters
  that feed only log lines, are not modelled.

- app/utils/vector_search.py : the deterministic (mock) embedding strategy
  (get_mock_embedding) and the provider entry point (get_embedding) in the
  configuration without an OpenAI credential (USE_MOCK_EMBEDDINGS = true).
  Python floats are idealised as real numbers; the stream of
  random.uniform(-1, 1) draws after random.seed(text) is a pure function of
  the seed text and the draw index, reflecting that the seed is the text
  itself.
-/

/-- Decidable equality for Except values, used to state concrete runs. -/
instance {ε α : Type} [DecidableEq ε] [DecidableEq α] : DecidableEq (Except ε α)
  | .ok a, .ok b =>
    if h : a = b then .isTrue (by rw [h]) else .isFalse (fun hc => by cases hc; exact h rfl)
  | .ok _, .error _ => .isFalse (fun hc => by cases hc)
  | .error _, .ok _ => .isFalse (fun hc => by cases hc)
  | .error a, .error b =>
    if h : a = b then .isTrue (by rw [h]) else .isFalse (fun hc => by cases hc; exact h rfl)

/-- Python str.startswith, computed over the character list of the string. -/
def pyStartsWith (s pre : String) : Bool := pre.data.isPrefixOf s.data

/-- Python str.lower, character by character. -/
def pyLower (s : String) : String := ⟨s.data.map Char.toLower⟩

/-- Index of the last occurrence of a character, accumulator version. -/
def lastIdxAux (c : Char) : List Char → Nat → Option Nat → Option Nat
  | [], _, acc => acc
  | x :: xs, i, acc => lastIdxAux c xs (i + 1) (if x = c then some i else acc)

/-- Index of the last occurrence of a character in a character list. -/
def lastIdx (c : Char) (l : List Char) : Option Nat := lastIdxAux c l 0 none

/-- Python os.path.splitext, extension part: the suffix from the last dot of
the basename, provided that dot is preceded inside the basename by some
non-dot character (CPython genericpath._splitext). -/
def splitextExt (path : String) : String :=
  let cs := path.data
  match lastIdx '.' cs with
  | none => ""
  | some dotIndex =>
    let filenameIndex : Nat :=
      match lastIdx '/' cs with
      | none => 0
      | some k => k + 1
    if filenameIndex ≤ dotIndex ∧
        ((cs.drop filenameIndex).take (dotIndex - filenameIndex)).any (fun ch => ch ≠ '.')
    then ⟨cs.drop dotIndex⟩
    else ""

/-- A stored source file as the Text Extractor sees it: its path plus the
outcomes of the parses the extractor may attempt.  txtContent is the file
read as UTF-8 with undecodable bytes replaced (this read is total);
pdfParse / docxParse give the page texts / paragraph texts, or the message
str(e) of the exception the parser raised; the Available flags model
whether the optional parser package imports. -/
structure SourceFile where
  path : String
  txtContent : String
  pdfAvailable : Bool
  pdfParse : Except String (List String)
  docxAvailable : Bool
  docxParse : Except String (List String)
deriving DecidableEq

/-- Model of extract_text_from_file (file_processing.py lines 16-54).  The
source signals extraction failures by returning sentinel strings rather
than raising. -/
def extract_text_from_file (f : SourceFile) : String :=
  let file_extension := pyLower (splitextExt f.path)
  if file_extension = ".txt" then
    f.txtContent
  else if file_extension = ".pdf" then
    if f.pdfAvailable then
      match f.pdfParse with
      | .ok pages => String.join pages
      | .error e => "Error extracting text from PDF: " ++ e
    else "Error: PDF processing requires PyPDF2. Please install it with pip install PyPDF2."
  else if file_extension = ".docx" ∨ file_extension = ".doc" then
    if f.docxAvailable then
      match f.docxParse with
      | .ok paras => String.intercalate "\n" paras
      | .error e => "Error extracting text from DOCX: " ++ e
    else "Error: DOCX processing requires python-docx. Please install it with pip install python-docx."
  else "Error: Unsupported file type " ++ file_extension

/-- A File row, restricted to the columns the pipeline touches. -/
structure FileRec where
  id : Nat
  filename : String
  status : String
deriving DecidableEq

/-- A Chunk row as created by the pipeline. -/
structure ChunkRec where
  id : Nat
  chunk_number : Nat
  text : String
  token_count : Nat
  file_id : Nat
deriving DecidableEq

/-- An Embedding row as created by the pipeline; the vector entries are
idealised as rationals, which the pipeline treats as opaque data. -/
structure EmbeddingRec where
  id : Nat
  chunk_id : Nat
  embedding_vector : List ℚ
  embedding_model : String
deriving DecidableEq

/-- The database state visible through the session. -/
structure DB where
  files : List FileRec
  chunks : List ChunkRec
  embeddings : List EmbeddingRec
deriving DecidableEq

/-- Pipeline state: the session view of the database, the number of commits
issued so far (consulted by the commit oracle), and a fresh-identifier
counter modelling uuid4 generation. -/
structure PState where
  db : DB
  nCommits : Nat
  nextId : Nat
deriving DecidableEq

/-- Outcome of one get_embedding call as the pipeline observes it: a vector,
a None return, or a raised exception. -/
inductive EmbedOutcome where
  | success (v : List ℚ)
  | noneResult
  | raised
deriving DecidableEq

/-- The pipeline's external collaborators: the stored file, the langchain
text splitter, the tiktoken token counter, the embedding provider, and the
database's commit-success oracle (commitOk n decides whether the n-th
commit of the run succeeds or raises). -/
structure World where
  src : SourceFile
  chunker : String → List String
  tokens : String → Nat
  embed : String → EmbedOutcome
  commitOk : Nat → Bool

/-- db.query(File).filter(File.id == file_id).first(). -/
def pyFirstFile (db : DB) (fid : Nat) : Option FileRec :=
  db.files.find? (fun f => f.id == fid)

/-- Assignment db_file.status = s, visible through the session. -/
def setStatus (st : PState) (fid : Nat) (s : String) : PState :=
  { st with db.files := st.db.files.map (fun f => if f.id == fid then { f with status := s } else f) }

/-- db.commit(): succeeds or raises according to the commit oracle; the
session state is retained either way and the commit counter advances. -/
def commit (w : World) (st : PState) : Except PState PState :=
  if w.commitOk st.nCommits
  then .ok { st with nCommits := st.nCommits + 1 }
  else .error { st with nCommits := st.nCommits + 1 }

/-- db.query(Embedding).filter(Embedding.chunk_id.in_(chunk_ids)).delete(). -/
def deleteEmbeddingsIn (st : PState) (chunk_ids : List Nat) : PState :=
  { st with db.embeddings := st.db.embeddings.filter (fun e => !(chunk_ids.contains e.chunk_id)) }

/-- db.query(Chunk).filter(Chunk.file_id == file_id).delete(). -/
def deleteChunksOf (st : PState) (fid : Nat) : PState :=
  { st with db.chunks := st.db.chunks.filter (fun c => !(c.file_id == fid)) }

/-- The duplicated deletion phase (file_processing.py lines 97-109 and
208-219): collect the document's chunk ids, delete the embeddings attached
to those chunks, then delete the chunks themselves. -/
def purgeFileData (st : PState) (fid : Nat) : PState :=
  let chunk_ids := (st.db.chunks.filter (fun c => c.file_id == fid)).map (fun c => c.id)
  let st1 := if chunk_ids.isEmpty then st else deleteEmbeddingsIn st chunk_ids
  deleteChunksOf st1 fid

/-- The document's chunk rows, in session order. -/
def chunksOf (db : DB) (fid : Nat) : List ChunkRec :=
  db.chunks.filter (fun c => c.file_id == fid)

/-- The document's lifecycle status, when the document exists. -/
def statusOf (db : DB) (fid : Nat) : Option String :=
  (pyFirstFile db fid).map (fun f => f.status)

/-- Whether some embedding row references the given chunk id. -/
def hasEmbeddingFor (db : DB) (cid : Nat) : Bool :=
  db.embeddings.any (fun e => e.chunk_id == cid)

/-- Whether a get_embedding outcome passes the pipeline's truthiness check
(if embedding_vector:), i.e. is a non-empty vector. -/
def embedOk : EmbedOutcome → Bool
  | .success v => !v.isEmpty
  | .noneResult => false
  | .raised => false

/-- One iteration of the per-chunk loop (file_processing.py lines 140-174):
persist the Chunk row with its 1-based number and token count, then attempt
the embedding; a truthy vector is persisted as an Embedding row stamped
with the constant model string, while a None return or a raised exception
is caught and the iteration ends without an embedding.  db.flush() does
not change the session view. -/
def saveChunkStep (w : World) (fid : Nat) (chunk_content : String) (i : Nat) (st : PState) :
    PState :=
  let token_count := w.tokens chunk_content
  let cid := st.nextId
  let st1 : PState :=
    { st with
      db.chunks := st.db.chunks ++
        [{ id := cid, chunk_number := i + 1, text := chunk_content,
           token_count := token_count, file_id := fid }],
      nextId := st.nextId + 1 }
  match w.embed chunk_content with
  | .success v =>
    if v.isEmpty then st1
    else
      { st1 with
        db.embeddings := st1.db.embeddings ++
          [{ id := st1.nextId, chunk_id := cid, embedding_vector := v,
             embedding_model := "text-embedding-ada-002" }],
        nextId := st1.nextId + 1 }
  | .noneResult => st1
  | .raised => st1

/-- The per-chunk loop: one saveChunkStep per chunk, in sequence order. -/
def saveChunks (w : World) (fid : Nat) : List String → Nat → PState → PState
  | [], _, st => st
  | chunk_content :: rest, i, st =>
    saveChunks w fid rest (i + 1) (saveChunkStep w fid chunk_content i st)

/-- The body of process_file's try block (file_processing.py lines 84-183):
look up the File row (return silently when absent), mark it Processing and
commit, purge prior chunks and embeddings, extract text (an extraction
sentinel sets status Error and stops), split into chunks, re-check for
leftover chunks, run the per-chunk loop, commit, and mark the document
Embedded.  An error value carries the session state where the exception
was raised. -/
def process_file_body (w : World) (fid : Nat) (st0 : PState) : Except PState PState :=
  match pyFirstFile st0.db fid with
  | none => .ok st0
  | some _ =>
    let st1 := setStatus st0 fid "Processing"
    match commit w st1 with
    | .error s => .error s
    | .ok st2 =>
      let st3 := purgeFileData st2 fid
      let text := extract_text_from_file w.src
      if pyStartsWith text "Error:" then
        commit w (setStatus st3 fid "Error")
      else
        let chunks := w.chunker text
        let chunk_count := (chunksOf st3.db fid).length
        let recheck : Except PState PState :=
          if chunk_count > 0 then commit w (deleteChunksOf st3 fid) else .ok st3
        match recheck with
        | .error s => .error s
        | .ok st4 =>
          let st5 := saveChunks w fid chunks 0 st4
          match commit w st5 with
          | .error s => .error s
          | .ok st6 => commit w (setStatus st6 fid "Embedded")

/-- The except handler shared by process_file and re_process_file (lines
185-192 and 226-233): re-query the File row and, when present, set its
status to Error and commit; a failure of that commit propagates to the
caller. -/
def handle_pipeline_error (w : World) (fid : Nat) (st : PState) : Except PState PState :=
  match pyFirstFile st.db fid with
  | none => .ok st
  | some _ => commit w (setStatus st fid "Error")

/-- Model of process_file: the try body with the except handler wrapped
around it.  A .error result is an exception propagating to the caller. -/
def process_file (w : World) (fid : Nat) (st : PState) : Except PState PState :=
  match process_file_body w fid st with
  | .ok st1 => .ok st1
  | .error st1 => handle_pipeline_error w fid st1

/-- The body of re_process_file's try block (lines 197-224): look up the
File row, purge the document's chunks and embeddings, commit, then run
process_file again. -/
def re_process_file_body (w : World) (fid : Nat) (st0 : PState) : Except PState PState :=
  match pyFirstFile st0.db fid with
  | none => .ok st0
  | some _ =>
    match commit w (purgeFileData st0 fid) with
    | .error s => .error s
    | .ok st1 => process_file w fid st1

/-- Model of re_process_file: its try body with the shared except handler. -/
def re_process_file (w : World) (fid : Nat) (st : PState) : Except PState PState :=
  match re_process_file_body w fid st with
  | .ok st1 => .ok st1
  | .error st1 => handle_pipeline_error w fid st1

/-- The session state a run ends in, whether it returned or raised. -/
def finalState : Except PState PState → PState
  | .ok s => s
  | .error s => s

/-- Whether a run raised an exception to its caller. -/
def raisesToCaller : Except PState PState → Bool
  | .ok _ => false
  | .error _ => true

/-- Referential integrity: every embedding row references some existing
chunk row. -/
def Integrity (db : DB) : Prop :=
  ∀ e ∈ db.embeddings, ∃ c ∈ db.chunks, e.chunk_id = c.id

/-- Python whitespace (the character class str.strip removes and
str.isspace accepts). -/
def isPySpace (ch : Char) : Bool :=
  let n := ch.toNat
  decide ((9 ≤ n ∧ n ≤ 13) ∨ (28 ≤ n ∧ n ≤ 32) ∨ n = 133 ∨ n = 160 ∨ n = 5760 ∨
    (8192 ≤ n ∧ n ≤ 8202) ∨ n = 8232 ∨ n = 8233 ∨ n = 8239 ∨ n = 8287 ∨ n = 12288)

/-- The test not text or not text.strip(): true exactly when the text is
empty or consists of whitespace only. -/
def pyIsBlank (s : String) : Bool := s.data.all isPySpace

/-- Python text[:n] over code points. -/
def pySlice (n : Nat) (s : String) : String := ⟨s.data.take n⟩

/-- The truncation step of get_embedding (vector_search.py lines 85-88). -/
def pyTrunc (text : String) : String :=
  if 8000 < text.data.length then pySlice 8000 text else text

/-- The raw draws of the mock strategy: the i-th random.uniform(-1, 1) value
after random.seed(text), for i below vector_size.  The draw stream is a
pure function rand of the seed text and the index, modelling that the seed
is the text itself. -/
def mockRaw (rand : String → Nat → ℝ) (text : String) (vector_size : Nat) : List ℝ :=
  (List.range vector_size).map (rand text)

/-- Python sum(x ** 2 for x in l) over idealised reals. -/
noncomputable def sumSq (l : List ℝ) : ℝ := (l.map (fun x => x ^ 2)).sum

/-- Model of get_mock_embedding (vector_search.py lines 43-65): draw
vector_size seeded uniform values, then divide each by the Euclidean
magnitude of the draw vector. -/
noncomputable def get_mock_embedding (rand : String → Nat → ℝ) (text : String)
    (vector_size : Nat) : List ℝ :=
  let mock_embedding := mockRaw rand text vector_size
  let magnitude := Real.sqrt (sumSq mock_embedding)
  mock_embedding.map (fun x => x / magnitude)

/-- Model of get_embedding (vector_search.py lines 67-95) on the
deterministic-strategy path (USE_MOCK_EMBEDDINGS = true): empty or
whitespace-only text returns None; otherwise the text is truncated to its
first 8000 characters and handed to the mock strategy with the default
1536-dimension size.  The surrounding try/except cannot fire in the
idealised real-number model, and the live OpenAI branch is not taken in
this configuration. -/
noncomputable def get_embedding (rand : String → Nat → ℝ) (text : String) : Option (List ℝ) :=
  if pyIsBlank text then none
  else some (get_mock_embedding rand (pyTrunc text) 1536)

/-- A status write does not change chunks, embeddings, counters or ids. -/
lemma setStatus_db_chunks (st : PState) (fid : Nat) (s : String) :
    (setStatus st fid s).db.chunks = st.db.chunks := rfl

lemma setStatus_db_embeddings (st : PState) (fid : Nat) (s : String) :
    (setStatus st fid s).db.embeddings = st.db.embeddings := rfl

lemma setStatus_nextId (st : PState) (fid : Nat) (s : String) :
    (setStatus st fid s).nextId = st.nextId := rfl

lemma setStatus_nCommits (st : PState) (fid : Nat) (s : String) :
    (setStatus st fid s).nCommits = st.nCommits := rfl

/-- Looking a file up after a status write finds the same row with the
status field replaced. -/
lemma pyFirstFile_setStatus (st : PState) (fid : Nat) (s : String) :
    pyFirstFile (setStatus st fid s).db fid
      = (pyFirstFile st.db fid).map (fun f => { f with status := s }) := by
  show (st.db.files.map fun f => if f.id == fid then { f with status := s } else f).find?
        (fun f => f.id == fid)
      = (st.db.files.find? fun f => f.id == fid).map fun f => { f with status := s }
  induction st.db.files with
  | nil => rfl
  | cons x xs ih =>
    by_cases h : x.id == fid
    · simp [List.find?, h]
    · simp only [List.map_cons, List.find?, h, Bool.false_eq_true, not_false_eq_true, if_neg]
      simpa [h] using ih

/-- The status a file shows after a status write targeted at it. -/
lemma statusOf_setStatus (st : PState) (fid : Nat) (s : String)
    (h : (pyFirstFile st.db fid).isSome) :
    statusOf (setStatus st fid s).db fid = some s := by
  rcases Option.isSome_iff_exists.mp h with ⟨f, hf⟩
  simp [statusOf, pyFirstFile_setStatus, hf]

/-- When every commit succeeds, a commit just advances the commit counter. -/
lemma commit_ok (w : World) (hok : ∀ n, w.commitOk n = true) (st : PState) :
    commit w st = .ok { st with nCommits := st.nCommits + 1 } := by
  simp [commit, hok]

/-- A commit leaves the session database untouched on both outcomes. -/
lemma finalState_commit_db (w : World) (st : PState) :
    (finalState (commit w st)).db = st.db := by
  unfold commit
  split <;> rfl

/-- The purge phase does not touch the file rows. -/
lemma purgeFileData_db_files (st : PState) (fid : Nat) :
    (purgeFileData st fid).db.files = st.db.files := by
  by_cases h : ((st.db.chunks.filter (fun c => c.file_id == fid)).map (fun c => c.id)).isEmpty <;>
    simp [purgeFileData, deleteEmbeddingsIn, deleteChunksOf, h]

lemma purgeFileData_nCommits (st : PState) (fid : Nat) :
    (purgeFileData st fid).nCommits = st.nCommits := by
  by_cases h : ((st.db.chunks.filter (fun c => c.file_id == fid)).map (fun c => c.id)).isEmpty <;>
    simp [purgeFileData, deleteEmbeddingsIn, deleteChunksOf, h]

lemma purgeFileData_nextId (st : PState) (fid : Nat) :
    (purgeFileData st fid).nextId = st.nextId := by
  by_cases h : ((st.db.chunks.filter (fun c => c.file_id == fid)).map (fun c => c.id)).isEmpty <;>
    simp [purgeFileData, deleteEmbeddingsIn, deleteChunksOf, h]

/-- After the purge phase the document's chunk rows are exactly the other
documents' rows. -/
lemma purgeFileData_db_chunks (st : PState) (fid : Nat) :
    (purgeFileData st fid).db.chunks = st.db.chunks.filter (fun c => !(c.file_id == fid)) := by
  by_cases h : ((st.db.chunks.filter (fun c => c.file_id == fid)).map (fun c => c.id)).isEmpty <;>
    simp [purgeFileData, deleteEmbeddingsIn, deleteChunksOf, h]

/-- After the purge phase the document has no chunk rows left. -/
lemma chunksOf_purgeFileData (st : PState) (fid : Nat) :
    chunksOf (purgeFileData st fid).db fid = [] := by
  unfold chunksOf
  rw [purgeFileData_db_chunks, List.filter_filter]
  simp

/-- An embedding survives the purge phase exactly when it was present before
and references none of the document's (deleted) chunk ids. -/
lemma purgeFileData_embeddings_mem (st : PState) (fid : Nat) (e : EmbeddingRec) :
    e ∈ (purgeFileData st fid).db.embeddings ↔
      e ∈ st.db.embeddings ∧ e.chunk_id ∉ (chunksOf st.db fid).map (fun c => c.id) := by
  by_cases hnil : ((st.db.chunks.filter (fun c => c.file_id == fid)).map (fun c => c.id)).isEmpty
  · rw [List.isEmpty_iff] at hnil
    simp [purgeFileData, deleteEmbeddingsIn, deleteChunksOf, chunksOf, hnil]
  · simp only [purgeFileData, deleteEmbeddingsIn, deleteChunksOf, chunksOf, hnil,
      Bool.false_eq_true, if_neg, not_false_eq_true, List.mem_filter,
      Bool.not_eq_eq_eq_not, Bool.not_true]
    constructor
    · rintro ⟨hm, hc⟩
      refine ⟨hm, fun hmem => ?_⟩
      rw [← List.elem_iff] at hmem
      rw [List.contains] at hc
      rw [hc] at hmem
      cases hmem
    · rintro ⟨hm, hc⟩
      refine ⟨hm, ?_⟩
      rw [List.contains]
      rcases hb : (st.db.chunks.filter (fun c => c.file_id == fid)).map (fun c => c.id)
          |>.elem e.chunk_id with _ | _
      · exact hb
      · exact absurd (List.elem_iff.mp hb) hc

/-- The purge phase preserves referential integrity: deleting the
embeddings attached to the document's chunks before deleting those chunks
leaves every surviving embedding attached to a surviving chunk. -/
lemma purgeFileData_integrity (st : PState) (fid : Nat) (h : Integrity st.db) :
    Integrity (purgeFileData st fid).db := by
  intro e he
  rw [purgeFileData_embeddings_mem] at he
  obtain ⟨hmem, hnot⟩ := he
  obtain ⟨c, hc, hce⟩ := h e hmem
  refine ⟨c, ?_, hce⟩
  rw [purgeFileData_db_chunks, List.mem_filter]
  refine ⟨hc, ?_⟩
  simp only [Bool.not_eq_eq_eq_not, Bool.not_true, beq_eq_false_iff_ne, ne_eq]
  intro hcf
  apply hnot
  rw [hce]
  refine List.mem_map_of_mem (fun c : ChunkRec => c.id) ?_
  unfold chunksOf
  rw [List.mem_filter]
  exact ⟨hc, by simp [hcf]⟩

/-- The except handler leaves chunks and embeddings untouched on every path. -/
lemma finalState_handle_error_db_embeddings (w : World) (fid : Nat) (st : PState) :
    (finalState (handle_pipeline_error w fid st)).db.embeddings = st.db.embeddings := by
  unfold handle_pipeline_error
  cases pyFirstFile st.db fid with
  | none => rfl
  | some f =>
    show (finalState (commit w (setStatus st fid "Error"))).db.embeddings = _
    rw [finalState_commit_db, setStatus_db_embeddings]

lemma finalState_handle_error_db_chunks (w : World) (fid : Nat) (st : PState) :
    (finalState (handle_pipeline_error w fid st)).db.chunks = st.db.chunks := by
  unfold handle_pipeline_error
  cases pyFirstFile st.db fid with
  | none => rfl
  | some f =>
    show (finalState (commit w (setStatus st fid "Error"))).db.chunks = _
    rw [finalState_commit_db, setStatus_db_chunks]

/-- A list of embeddings none of which references a given chunk id reports
no embedding for it. -/
lemma any_chunk_id_eq_false (l : List EmbeddingRec) (n : Nat)
    (h : ∀ e ∈ l, e.chunk_id ≠ n) : l.any (fun e => e.chunk_id == n) = false := by
  rw [List.any_eq_false]
  intro e he
  simp [h e he]

/-- The two shapes a loop iteration can leave the state in: chunk row
appended and, exactly when the embedding outcome passes the truthiness
check, an embedding row appended as well. -/
lemma saveChunkStep_cases (w : World) (fid : Nat) (c : String) (i : Nat) (st : PState) :
    (embedOk (w.embed c) = false ∧
      saveChunkStep w fid c i st =
        { db := { files := st.db.files,
                  chunks := st.db.chunks ++
                    [{ id := st.nextId, chunk_number := i + 1, text := c,
                       token_count := w.tokens c, file_id := fid }],
                  embeddings := st.db.embeddings },
          nCommits := st.nCommits, nextId := st.nextId + 1 }) ∨
    (∃ v, w.embed c = .success v ∧ embedOk (w.embed c) = true ∧
      saveChunkStep w fid c i st =
        { db := { files := st.db.files,
                  chunks := st.db.chunks ++
                    [{ id := st.nextId, chunk_number := i + 1, text := c,
                       token_count := w.tokens c, file_id := fid }],
                  embeddings := st.db.embeddings ++
                    [{ id := st.nextId + 1, chunk_id := st.nextId, embedding_vector := v,
                       embedding_model := "text-embedding-ada-002" }] },
          nCommits := st.nCommits, nextId := st.nextId + 1 + 1 }) := by
  rcases hemb : w.embed c with v | _ | _
  · by_cases hv : v.isEmpty
    · exact Or.inl ⟨by simp [embedOk, hemb, hv], by simp [saveChunkStep, hemb, hv]⟩
    · exact Or.inr ⟨v, rfl, by simp [embedOk, hemb, hv],
        by simp [saveChunkStep, hemb, hv]⟩
  · exact Or.inl ⟨by simp [embedOk, hemb], by simp [saveChunkStep, hemb]⟩
  · exact Or.inl ⟨by simp [embedOk, hemb], by simp [saveChunkStep, hemb]⟩

/-- Every embedding the per-chunk loop adds carries the constant model
string; every other embedding it leaves alone. -/
lemma saveChunks_model (w : World) (fid : Nat) :
    ∀ (chunks : List String) (i : Nat) (st : PState),
    ∀ e ∈ (saveChunks w fid chunks i st).db.embeddings,
      e ∈ st.db.embeddings ∨ e.embedding_model = "text-embedding-ada-002" := by
  intro chunks
  induction chunks with
  | nil => intro i st e he; exact Or.inl he
  | cons c rest ih =>
    intro i st e he
    rw [saveChunks] at he
    rcases saveChunkStep_cases w fid c i st with ⟨_, hstep⟩ | ⟨v, _, _, hstep⟩ <;>
      rw [hstep] at he
    · have h2 := ih (i + 1) _ e he
      exact h2
    · rcases ih (i + 1) _ e he with hin | hmodel
      · rcases List.mem_append.mp hin with hold | hnew
        · exact Or.inl hold
        · rcases List.mem_singleton.mp hnew with rfl
          exact Or.inr rfl
      · exact Or.inr hmodel

/-- The per-chunk loop does not touch the file rows and issues no commits. -/
lemma saveChunks_frame (w : World) (fid : Nat) :
    ∀ (chunks : List String) (i : Nat) (st : PState),
    (saveChunks w fid chunks i st).db.files = st.db.files ∧
    (saveChunks w fid chunks i st).nCommits = st.nCommits := by
  intro chunks
  induction chunks with
  | nil => intro i st; exact ⟨rfl, rfl⟩
  | cons c rest ih =>
    intro i st
    rw [saveChunks]
    rcases saveChunkStep_cases w fid c i st with ⟨_, hstep⟩ | ⟨v, _, _, hstep⟩ <;>
      rw [hstep] <;> exact ih (i + 1) _

/-- Full characterisation of the per-chunk loop run from a state whose
embeddings all reference ids below the fresh-id counter: the loop appends
one chunk row per chunker segment, with file ownership, fresh ids, the
segment texts in order and consecutive 1-based numbers starting at i + 1;
it appends only model-stamped embeddings referencing the new chunks; and
the j-th new chunk ends up with an embedding exactly when the embedding
outcome for its text passes the truthiness check. -/
lemma saveChunks_spec (w : World) (fid : Nat) :
    ∀ (chunks : List String) (i : Nat) (st : PState),
    (∀ e ∈ st.db.embeddings, e.chunk_id < st.nextId) →
    ∃ news newEmbs,
      (saveChunks w fid chunks i st).db.chunks = st.db.chunks ++ news ∧
      (saveChunks w fid chunks i st).db.embeddings = st.db.embeddings ++ newEmbs ∧
      st.nextId ≤ (saveChunks w fid chunks i st).nextId ∧
      (∀ e ∈ (saveChunks w fid chunks i st).db.embeddings,
        e.chunk_id < (saveChunks w fid chunks i st).nextId) ∧
      (∀ c ∈ news, c.file_id = fid) ∧
      (∀ c ∈ news, st.nextId ≤ c.id) ∧
      news.map (fun c => c.text) = chunks ∧
      news.map (fun c => c.chunk_number) = (List.range chunks.length).map (fun j => j + i + 1) ∧
      (∀ e ∈ newEmbs,
        e.embedding_model = "text-embedding-ada-002" ∧ ∃ c ∈ news, e.chunk_id = c.id) ∧
      (∀ j (hj : j < news.length),
        hasEmbeddingFor (saveChunks w fid chunks i st).db (news.get ⟨j, hj⟩).id
          = embedOk (w.embed (news.get ⟨j, hj⟩).text)) := by
  intro chunks
  induction chunks with
  | nil =>
    intro i st hfr
    exact ⟨[], [], by simp [saveChunks], by simp [saveChunks], le_refl _, hfr,
      by simp, by simp, by simp, by simp, fun e he => absurd he (List.not_mem_nil e),
      fun j hj => absurd hj (Nat.not_lt_zero j)⟩
  | cons c rest ih =>
    intro i st hfr
    rcases saveChunkStep_cases w fid c i st with ⟨hok, hstep⟩ | ⟨v, hv, hok, hstep⟩
    · -- no embedding row added for this chunk
      have hfr2 : ∀ e ∈ (saveChunkStep w fid c i st).db.embeddings,
          e.chunk_id < (saveChunkStep w fid c i st).nextId := by
        rw [hstep]
        intro e he
        exact Nat.lt_trans (hfr e he) (Nat.lt_succ_self _)
      obtain ⟨news', newEmbs', h1, h2, h3, h4, h5, h6, h7, h8, h9, h10⟩ :=
        ih (i + 1) (saveChunkStep w fid c i st) hfr2
      have hnid : (saveChunkStep w fid c i st).nextId = st.nextId + 1 := by rw [hstep]
      refine ⟨(⟨st.nextId, i + 1, c, w.tokens c, fid⟩ : ChunkRec) :: news', newEmbs',
        ?_, ?_, ?_, ?_, ?_, ?_, ?_, ?_, ?_, ?_⟩
      · rw [saveChunks, h1, hstep]; simp
      · rw [saveChunks, h2, hstep]
      · rw [saveChunks]
        calc st.nextId ≤ st.nextId + 1 := Nat.le_succ _
        _ ≤ _ := hnid ▸ h3
      · rw [saveChunks]; exact h4
      · intro c' hc'
        rcases List.mem_cons.mp hc' with rfl | hmem
        · rfl
        · exact h5 c' hmem
      · intro c' hc'
        rcases List.mem_cons.mp hc' with rfl | hmem
        · exact le_refl _
        · have t := h6 c' hmem
          rw [hnid] at t
          omega
      · simp [h7]
      · rw [List.map_cons, List.length_cons, List.range_succ_eq_map, List.map_cons,
          List.map_map, h8]
        have hf : ((fun j => j + i + 1) ∘ Nat.succ) = (fun j => j + (i + 1) + 1) := by
          funext j
          simp [Function.comp]
          omega
        rw [hf]
        simp
      · intro e he
        obtain ⟨hm, c', hc', hid⟩ := h9 e he
        exact ⟨hm, c', List.mem_cons_of_mem _ hc', hid⟩
      · intro j hj
        cases j with
        | zero =>
          rw [saveChunks]
          show hasEmbeddingFor (saveChunks w fid rest (i + 1) (saveChunkStep w fid c i st)).db
            st.nextId = embedOk (w.embed c)
          rw [hok]
          show (saveChunks w fid rest (i + 1) (saveChunkStep w fid c i st)).db.embeddings.any
            (fun e => e.chunk_id == st.nextId) = false
          have h2' : (saveChunks w fid rest (i + 1)
              (saveChunkStep w fid c i st)).db.embeddings = st.db.embeddings ++ newEmbs' := by
            rw [h2, hstep]
          rw [h2', List.any_append]
          have ha : st.db.embeddings.any (fun e => e.chunk_id == st.nextId) = false :=
            any_chunk_id_eq_false _ _ (fun e he => Nat.ne_of_lt (hfr e he))
          have hb : newEmbs'.any (fun e => e.chunk_id == st.nextId) = false := by
            apply any_chunk_id_eq_false
            intro e he
            obtain ⟨_, c', hc', hid⟩ := h9 e he
            have hcid : st.nextId + 1 ≤ c'.id := hnid ▸ h6 c' hc'
            omega
          rw [ha, hb]
          rfl
        | succ j =>
          have hj' : j < news'.length := Nat.succ_lt_succ_iff.mp (by simpa using hj)
          have := h10 j hj'
          rw [saveChunks]
          simpa using this
    · -- an embedding row is added for this chunk
      have hfr2 : ∀ e ∈ (saveChunkStep w fid c i st).db.embeddings,
          e.chunk_id < (saveChunkStep w fid c i st).nextId := by
        rw [hstep]
        intro e he
        rcases List.mem_append.mp he with hold | hnew
        · exact Nat.lt_trans (hfr e hold) (show st.nextId < st.nextId + 1 + 1 by omega)
        · rcases List.mem_singleton.mp hnew with rfl
          show st.nextId < st.nextId + 1 + 1
          omega
      obtain ⟨news', newEmbs', h1, h2, h3, h4, h5, h6, h7, h8, h9, h10⟩ :=
        ih (i + 1) (saveChunkStep w fid c i st) hfr2
      have hnid : (saveChunkStep w fid c i st).nextId = st.nextId + 1 + 1 := by rw [hstep]
      refine ⟨(⟨st.nextId, i + 1, c, w.tokens c, fid⟩ : ChunkRec) :: news',
        (⟨st.nextId + 1, st.nextId, v, "text-embedding-ada-002"⟩ : EmbeddingRec) :: newEmbs',
        ?_, ?_, ?_, ?_, ?_, ?_, ?_, ?_, ?_, ?_⟩
      · rw [saveChunks, h1, hstep]; simp
      · rw [saveChunks, h2, hstep]; simp
      · rw [saveChunks]
        calc st.nextId ≤ st.nextId + 1 + 1 := by omega
        _ ≤ _ := hnid ▸ h3
      · rw [saveChunks]; exact h4
      · intro c' hc'
        rcases List.mem_cons.mp hc' with rfl | hmem
        · rfl
        · exact h5 c' hmem
      · intro c' hc'
        rcases List.mem_cons.mp hc' with rfl | hmem
        · exact le_refl _
        · have t := h6 c' hmem
          rw [hnid] at t
          omega
      · simp [h7]
      · rw [List.map_cons, List.length_cons, List.range_succ_eq_map, List.map_cons,
          List.map_map, h8]
        have hf : ((fun j => j + i + 1) ∘ Nat.succ) = (fun j => j + (i + 1) + 1) := by
          funext j
          simp [Function.comp]
          omega
        rw [hf]
        simp
      · intro e he
        rcases List.mem_cons.mp he with rfl | hmem
        · exact ⟨rfl, (⟨st.nextId, i + 1, c, w.tokens c, fid⟩ : ChunkRec),
            List.mem_cons_self _ _, rfl⟩
        · obtain ⟨hm, c', hc', hid⟩ := h9 e hmem
          exact ⟨hm, c', List.mem_cons_of_mem _ hc', hid⟩
      · intro j hj
        cases j with
        | zero =>
          rw [saveChunks]
          show hasEmbeddingFor (saveChunks w fid rest (i + 1) (saveChunkStep w fid c i st)).db
            st.nextId = embedOk (w.embed c)
          rw [hok]
          show (saveChunks w fid rest (i + 1) (saveChunkStep w fid c i st)).db.embeddings.any
            (fun e => e.chunk_id == st.nextId) = true
          have h2' : (saveChunks w fid rest (i + 1)
              (saveChunkStep w fid c i st)).db.embeddings =
              (st.db.embeddings ++
                [{ id := st.nextId + 1, chunk_id := st.nextId, embedding_vector := v,
                   embedding_model := "text-embedding-ada-002" }]) ++ newEmbs' := by
            rw [h2, hstep]
          rw [h2', List.any_append, List.any_append]
          simp
        | succ j =>
          have hj' : j < news'.length := Nat.succ_lt_succ_iff.mp (by simpa using hj)
          have := h10 j hj'
          rw [saveChunks]
          simpa using this

/-- The state after a successful commit: only the commit counter moves. -/
def bumpCommits (st : PState) : PState := { st with nCommits := st.nCommits + 1 }

/-- The state process_file reaches after marking the document Processing and
committing. -/
def pfStage2 (st : PState) (fid : Nat) : PState := bumpCommits (setStatus st fid "Processing")

/-- The state process_file reaches after the purge phase. -/
def pfStage3 (st : PState) (fid : Nat) : PState := purgeFileData (pfStage2 st fid) fid

/-- The state process_file reaches after the per-chunk loop. -/
def pfStage5 (w : World) (fid : Nat) (st : PState) : PState :=
  saveChunks w fid (w.chunker (extract_text_from_file w.src)) 0 (pfStage3 st fid)

/-- The state a fully successful process_file run returns. -/
def pfOkState (w : World) (fid : Nat) (st : PState) : PState :=
  bumpCommits (setStatus (bumpCommits (pfStage5 w fid st)) fid "Embedded")

/-- File lookups depend only on the file rows. -/
lemma pyFirstFile_eq_of_files {db1 db2 : DB} (fid : Nat) (h : db1.files = db2.files) :
    pyFirstFile db1 fid = pyFirstFile db2 fid := by
  unfold pyFirstFile
  rw [h]

/-- When every commit succeeds, a found document whose extraction does not
hit the sentinel check drives process_file to the composite success state. -/
lemma process_file_ok_eq (w : World) (fid : Nat) (st : PState)
    (hok : ∀ n, w.commitOk n = true)
    (f0 : FileRec) (hf0 : pyFirstFile st.db fid = some f0)
    (hext : pyStartsWith (extract_text_from_file w.src) "Error:" = false) :
    process_file w fid st = .ok (pfOkState w fid st) := by
  unfold process_file process_file_body pfOkState pfStage5 pfStage3 pfStage2 bumpCommits
  rw [hf0]
  simp only [commit_ok w hok, hext, chunksOf_purgeFileData, List.length_nil,
    gt_iff_lt, Nat.lt_irrefl, if_false, Bool.false_eq_true]

/-- Observable facts about a fully successful process_file run: the run
returns normally, the document ends Embedded, its chunk rows are exactly
the fresh ones (chunker texts in order, numbers 1..N), each fresh chunk
has an embedding exactly when its embedding outcome was truthy, every
added embedding is model-stamped, surviving embeddings are old rows not
referencing any deleted chunk while added ones use fresh ids, and
referential integrity is preserved. -/
lemma process_file_run (w : World) (fid : Nat) (st : PState)
    (hok : ∀ n, w.commitOk n = true)
    (f0 : FileRec) (hf0 : pyFirstFile st.db fid = some f0)
    (hext : pyStartsWith (extract_text_from_file w.src) "Error:" = false)
    (hfr : ∀ e ∈ st.db.embeddings, e.chunk_id < st.nextId) :
    ∃ news,
      process_file w fid st = .ok (pfOkState w fid st) ∧
      statusOf (pfOkState w fid st).db fid = some "Embedded" ∧
      chunksOf (pfOkState w fid st).db fid = news ∧
      news.map (fun c => c.text) = w.chunker (extract_text_from_file w.src) ∧
      news.map (fun c => c.chunk_number) =
        (List.range (w.chunker (extract_text_from_file w.src)).length).map (fun j => j + 1) ∧
      (∀ j (hj : j < news.length),
        hasEmbeddingFor (pfOkState w fid st).db (news.get ⟨j, hj⟩).id
          = embedOk (w.embed ((news.get ⟨j, hj⟩).text))) ∧
      (∀ e ∈ (pfOkState w fid st).db.embeddings, e ∈ st.db.embeddings ∨
        e.embedding_model = "text-embedding-ada-002") ∧
      (∀ e ∈ (pfOkState w fid st).db.embeddings,
        (e ∈ st.db.embeddings ∧ e.chunk_id ∉ (chunksOf st.db fid).map (fun c => c.id)) ∨
        st.nextId ≤ e.chunk_id) ∧
      (Integrity st.db → Integrity (pfOkState w fid st).db) := by
  have h3chunksOf : chunksOf (pfStage3 st fid).db fid = [] :=
    chunksOf_purgeFileData (pfStage2 st fid) fid
  have h3nextId : (pfStage3 st fid).nextId = st.nextId := by
    unfold pfStage3
    rw [purgeFileData_nextId]
    rfl
  have h3mem : ∀ e : EmbeddingRec, e ∈ (pfStage3 st fid).db.embeddings ↔
      e ∈ st.db.embeddings ∧ e.chunk_id ∉ (chunksOf st.db fid).map (fun c => c.id) :=
    fun e => purgeFileData_embeddings_mem (pfStage2 st fid) fid e
  have hfr3 : ∀ e ∈ (pfStage3 st fid).db.embeddings, e.chunk_id < (pfStage3 st fid).nextId := by
    intro e he
    obtain ⟨hm, _⟩ := (h3mem e).mp he
    rw [h3nextId]
    exact hfr e hm
  obtain ⟨news, newEmbs, h1, h2, h3, h4, h5, h6, h7, h8, h9, h10⟩ :=
    saveChunks_spec w fid (w.chunker (extract_text_from_file w.src)) 0 (pfStage3 st fid) hfr3
  have hfiles5 : (pfStage5 w fid st).db.files = (setStatus st fid "Processing").db.files := by
    unfold pfStage5
    rw [(saveChunks_frame w fid _ 0 _).1]
    unfold pfStage3
    rw [purgeFileData_db_files]
    rfl
  have hfind5 : pyFirstFile (pfStage5 w fid st).db fid
      = some { f0 with status := "Processing" } := by
    rw [pyFirstFile_eq_of_files fid hfiles5, pyFirstFile_setStatus, hf0]
    rfl
  refine ⟨news, process_file_ok_eq w fid st hok f0 hf0 hext, ?_, ?_, h7, ?_, ?_, ?_, ?_, ?_⟩
  · show statusOf (setStatus (bumpCommits (pfStage5 w fid st)) fid "Embedded").db fid = _
    apply statusOf_setStatus
    show (pyFirstFile (pfStage5 w fid st).db fid).isSome
    rw [hfind5]
    rfl
  · show chunksOf (pfStage5 w fid st).db fid = news
    unfold chunksOf
    rw [show (pfStage5 w fid st).db.chunks = (pfStage3 st fid).db.chunks ++ news from h1,
      List.filter_append]
    have hz : (pfStage3 st fid).db.chunks.filter (fun c => c.file_id == fid) = [] := h3chunksOf
    rw [hz, List.nil_append]
    exact List.filter_eq_self.mpr (fun c hc => by simp [h5 c hc])
  · have h8' := h8
    simp only [Nat.add_zero] at h8'
    exact h8'
  · exact fun j hj => h10 j hj
  · intro e he
    rcases saveChunks_model w fid (w.chunker (extract_text_from_file w.src)) 0
        (pfStage3 st fid) e he with h3e | hmod
    · exact Or.inl ((h3mem e).mp h3e).1
    · exact Or.inr hmod
  · intro e he
    have he5 : e ∈ (pfStage3 st fid).db.embeddings ++ newEmbs := by
      rw [← h2]
      exact he
    rcases List.mem_append.mp he5 with h3e | hnewe
    · exact Or.inl ((h3mem e).mp h3e)
    · obtain ⟨_, c, hcnews, hce⟩ := h9 e hnewe
      have := h6 c hcnews
      rw [h3nextId] at this
      rw [hce]
      exact Or.inr this
  · intro hint e he
    have hint2 : Integrity (pfStage2 st fid).db := fun e2 he2 => hint e2 he2
    have hint3 : Integrity (pfStage3 st fid).db := purgeFileData_integrity _ fid hint2
    have he5 : e ∈ (pfStage3 st fid).db.embeddings ++ newEmbs := by
      rw [← h2]
      exact he
    rcases List.mem_append.mp he5 with h3e | hnewe
    · obtain ⟨c, hc, hce⟩ := hint3 e h3e
      refine ⟨c, ?_, hce⟩
      rw [show (pfOkState w fid st).db.chunks = (pfStage3 st fid).db.chunks ++ news from h1]
      exact List.mem_append_left _ hc
    · obtain ⟨_, c, hcnews, hce⟩ := h9 e hnewe
      refine ⟨c, ?_, hce⟩
      rw [show (pfOkState w fid st).db.chunks = (pfStage3 st fid).db.chunks ++ news from h1]
      exact List.mem_append_right _ hcnews

/-- The state re_process_file hands to process_file after its own purge and
commit. -/
def rpStage1 (st : PState) (fid : Nat) : PState := bumpCommits (purgeFileData st fid)

/-- When every commit succeeds, re_process_file on a found document with
non-sentinel extraction runs the purge and then a full successful
process_file. -/
lemma re_process_file_ok_eq (w : World) (fid : Nat) (st : PState)
    (hok : ∀ n, w.commitOk n = true)
    (f0 : FileRec) (hf0 : pyFirstFile st.db fid = some f0)
    (hext : pyStartsWith (extract_text_from_file w.src) "Error:" = false) :
    re_process_file w fid st = .ok (pfOkState w fid (rpStage1 st fid)) := by
  have hfR : pyFirstFile (rpStage1 st fid).db fid = some f0 := by
    show pyFirstFile (purgeFileData st fid).db fid = some f0
    rw [pyFirstFile_eq_of_files fid (purgeFileData_db_files st fid), hf0]
  have hbody : re_process_file_body w fid st = .ok (pfOkState w fid (rpStage1 st fid)) := by
    unfold re_process_file_body
    rw [hf0]
    simp only [commit_ok w hok]
    exact process_file_ok_eq w fid (rpStage1 st fid) hok f0 hfR hext
  unfold re_process_file
  rw [hbody]

/-- A failed commit returns the session database unchanged. -/
lemma commit_error_db {w : World} {x s : PState} (h : commit w x = .error s) : s.db = x.db := by
  unfold commit at h
  split at h <;> cases h <;> rfl

/-- A successful commit returns the session database unchanged. -/
lemma commit_ok_db {w : World} {x s : PState} (h : commit w x = .ok s) : s.db = x.db := by
  unfold commit at h
  split at h <;> cases h <;> rfl


/-- Let-free unfolding of the try body, used for path case analysis. -/
lemma process_file_body_eq (w : World) (fid : Nat) (st0 : PState) :
    process_file_body w fid st0 =
      match pyFirstFile st0.db fid with
      | none => .ok st0
      | some _ =>
        match commit w (setStatus st0 fid "Processing") with
        | .error s => .error s
        | .ok st2 =>
          if pyStartsWith (extract_text_from_file w.src) "Error:" then
            commit w (setStatus (purgeFileData st2 fid) fid "Error")
          else
            match (if (chunksOf (purgeFileData st2 fid).db fid).length > 0
                then commit w (deleteChunksOf (purgeFileData st2 fid) fid)
                else .ok (purgeFileData st2 fid)) with
            | .error s => .error s
            | .ok st4 =>
              match commit w
                  (saveChunks w fid (w.chunker (extract_text_from_file w.src)) 0 st4) with
              | .error s => .error s
              | .ok st6 => commit w (setStatus st6 fid "Embedded") := rfl

/-- On every control path of the try body, the final session state only ever
contains embeddings that were already present or that carry the constant
model string. -/
lemma process_file_body_embs (w : World) (fid : Nat) (st : PState) :
    ∀ e ∈ (finalState (process_file_body w fid st)).db.embeddings,
      e ∈ st.db.embeddings ∨ e.embedding_model = "text-embedding-ada-002" := by
  intro e
  rw [process_file_body_eq]
  split
  · intro he
    exact Or.inl he
  · split
    · rename_i s hs
      intro he
      rw [show (finalState (Except.error s : Except PState PState)) = s from rfl] at he
      rw [commit_error_db hs] at he
      exact Or.inl he
    · rename_i st2 hs2
      have hdb2 : st2.db = (setStatus st fid "Processing").db := commit_ok_db hs2
      split
      · intro he
        rw [finalState_commit_db, setStatus_db_embeddings, purgeFileData_embeddings_mem,
          hdb2] at he
        exact Or.inl he.1
      · rw [show chunksOf (purgeFileData st2 fid).db fid = []
            from chunksOf_purgeFileData st2 fid]
        simp only [List.length_nil, gt_iff_lt, Nat.lt_irrefl, if_false, Bool.false_eq_true]
        split
        · rename_i s hs
          intro he
          rw [show (finalState (Except.error s : Except PState PState)) = s from rfl] at he
          rw [commit_error_db hs] at he
          rcases saveChunks_model w fid _ 0 _ e he with hin | hmod
          · rw [purgeFileData_embeddings_mem, hdb2] at hin
            exact Or.inl hin.1
          · exact Or.inr hmod
        · rename_i st6 hs6
          intro he
          rw [finalState_commit_db, setStatus_db_embeddings, commit_ok_db hs6] at he
          rcases saveChunks_model w fid _ 0 _ e he with hin | hmod
          · rw [purgeFileData_embeddings_mem, hdb2] at hin
            exact Or.inl hin.1
          · exact Or.inr hmod

/-- A stored plain-text file used by concrete runs. -/
def txtSrc : SourceFile := ⟨"/u/doc.txt", "hello world", true, .ok [], true, .ok []⟩

/-- A concrete world: text file, one-segment chunker, embeddings succeed,
every commit succeeds. -/
def okWorld : World := ⟨txtSrc, fun t => [t], fun _ => 2, fun _ => .success [1], fun _ => true⟩

/-- A concrete initial state: one Pending document, empty chunk and
embedding tables. -/
def baseState : PState := ⟨⟨[⟨1, "doc.txt", "Pending"⟩], [], []⟩, 0, 10⟩

/-- C10: when no File row matches the identifier, process_file returns
without raising and with the session state untouched: no status write, no
chunk or embedding deletion or creation. -/
theorem process_file_missing_document_noop (w : World) (fid : Nat) (st : PState)
    (h : pyFirstFile st.db fid = none) :
    process_file w fid st = .ok st := by
  unfold process_file
  rw [process_file_body_eq, h]

/-- Witness for C10 at a concrete empty database. -/
theorem process_file_missing_document_noop_witness :
    pyFirstFile (⟨⟨[], [], []⟩, 0, 0⟩ : PState).db 1 = none ∧
      process_file okWorld 1 ⟨⟨[], [], []⟩, 0, 0⟩ = .ok ⟨⟨[], [], []⟩, 0, 0⟩ :=
  ⟨by decide, process_file_missing_document_noop okWorld 1 _ (by decide)⟩

/-- C9: every embedding row the run adds - on any control path, any commit
outcomes, any embedding outcomes - carries the constant model identifier
"text-embedding-ada-002"; the pipeline stamps this string even when
get_embedding produced the vector with the deterministic mock strategy. -/
theorem pipeline_embedding_model_constant (w : World) (fid : Nat) (st : PState) :
    ∀ e ∈ (finalState (process_file w fid st)).db.embeddings,
      e ∈ st.db.embeddings ∨ e.embedding_model = "text-embedding-ada-002" := by
  intro e he
  unfold process_file at he
  cases hb : process_file_body w fid st with
  | ok s =>
    rw [hb] at he
    have hmain := process_file_body_embs w fid st e
    rw [hb] at hmain
    exact hmain he
  | error s =>
    rw [hb] at he
    have he2 : e ∈ (finalState (handle_pipeline_error w fid s)).db.embeddings := he
    rw [finalState_handle_error_db_embeddings] at he2
    have hmain := process_file_body_embs w fid st e
    rw [hb] at hmain
    exact hmain he2

/-- Witness for C9: a concrete run creates an embedding row and that row
carries the constant model string. -/
theorem pipeline_embedding_model_constant_witness :
    (⟨11, 10, [1], "text-embedding-ada-002"⟩ : EmbeddingRec) ∈
        (finalState (process_file okWorld 1 baseState)).db.embeddings ∧
      ((⟨11, 10, [1], "text-embedding-ada-002"⟩ : EmbeddingRec) ∈ baseState.db.embeddings ∨
        (⟨(11 : Nat), 10, [1], "text-embedding-ada-002"⟩ : EmbeddingRec).embedding_model
          = "text-embedding-ada-002") :=
  ⟨by decide, pipeline_embedding_model_constant okWorld 1 baseState _ (by decide)⟩

/-- A concrete world in which every database commit raises. -/
def failCommitWorld : World :=
  ⟨txtSrc, fun t => [t], fun _ => 2, fun _ => .success [1], fun _ => false⟩

/-- Counterexample to C5: when the commit of the Processing status raises
and the recovery commit inside the except handler raises as well, the
exception propagates out of process_file to its caller. -/
theorem process_file_raises_when_recovery_commit_fails :
    raisesToCaller (process_file failCommitWorld 1 baseState) = true := by decide

/-- C5 (amended): once process_file has started, every failure other than a
failed database commit in the error-recovery path is caught at the
pipeline boundary; in particular, when all commits succeed, process_file
never raises to its caller, whatever the extraction, chunker and embedding
outcomes are. -/
theorem process_file_absorbs_failures_when_commits_succeed (w : World) (fid : Nat)
    (st : PState) (hok : ∀ n, w.commitOk n = true) :
    ∃ st', process_file w fid st = .ok st' := by
  rcases hf : pyFirstFile st.db fid with _ | f0
  · refine ⟨st, ?_⟩
    unfold process_file
    rw [process_file_body_eq, hf]
  · by_cases hext : pyStartsWith (extract_text_from_file w.src) "Error:" = true
    · refine ⟨bumpCommits (setStatus (pfStage3 st fid) fid "Error"), ?_⟩
      unfold process_file
      rw [process_file_body_eq, hf]
      simp only [commit_ok w hok, hext, if_true]
      unfold pfStage3 pfStage2 bumpCommits
      rfl
    · have hext2 : pyStartsWith (extract_text_from_file w.src) "Error:" = false := by
        simpa using hext
      exact ⟨pfOkState w fid st, process_file_ok_eq w fid st hok f0 hf hext2⟩

/-- Witness for the amended C5 at a concrete world whose commits succeed. -/
theorem process_file_absorbs_failures_witness :
    (∀ n, okWorld.commitOk n = true) ∧
      ∃ st', process_file okWorld 1 baseState = .ok st' :=
  ⟨fun _ => rfl, process_file_absorbs_failures_when_commits_succeed okWorld 1 baseState
    (fun _ => rfl)⟩

/-- A stored PDF whose parse raises (corrupt content); PyPDF2 imports fine. -/
def corruptPdfSrc : SourceFile :=
  ⟨"/u/doc.pdf", "", true, .error "EOF marker not found", true, .ok []⟩

/-- The pipeline world around the corrupt PDF. -/
def corruptPdfWorld : World :=
  ⟨corruptPdfSrc, fun t => [t], fun _ => 2, fun _ => .noneResult, fun _ => true⟩

/-- A stored file with an unsupported extension. -/
def xyzSrc : SourceFile := ⟨"/u/doc.xyz", "", true, .ok [], true, .ok []⟩

/-- The pipeline world around the unsupported-extension file. -/
def xyzWorld : World := ⟨xyzSrc, fun t => [t], fun _ => 2, fun _ => .noneResult, fun _ => true⟩

/-- C1 (code bug): for a corrupt PDF the extractor returns the sentinel
string "Error extracting text from PDF: ...", which fails the
startswith("Error:") check in process_file, so the run chunks the error
message itself and ends with status Embedded and a non-empty chunk set -
against the spec, which requires status Error and no chunks.  For an
unsupported extension the sentinel does start with "Error:" and the run
ends with status Error and no chunks, as the spec says. -/
theorem corrupt_pdf_extraction_reaches_embedded :
    extract_text_from_file corruptPdfSrc
        = "Error extracting text from PDF: EOF marker not found"
    ∧ pyStartsWith (extract_text_from_file corruptPdfSrc) "Error:" = false
    ∧ statusOf (finalState (process_file corruptPdfWorld 1 baseState)).db 1 = some "Embedded"
    ∧ chunksOf (finalState (process_file corruptPdfWorld 1 baseState)).db 1 ≠ []
    ∧ statusOf (finalState (process_file xyzWorld 1 baseState)).db 1 = some "Error"
    ∧ chunksOf (finalState (process_file xyzWorld 1 baseState)).db 1 = [] := by
  refine ⟨by decide, by decide, by decide, by decide, by decide, by decide⟩

/-- C4: for a freshly ingested document (no pre-existing chunk rows) whose
chunker produces N segments, a successful run persists chunk rows whose
texts are the chunker output in order and whose chunk_number values are
exactly 1..N, contiguous with no gaps. -/
theorem fresh_ingest_chunk_numbering (w : World) (fid : Nat) (st : PState)
    (hok : ∀ n, w.commitOk n = true)
    (f0 : FileRec) (hf0 : pyFirstFile st.db fid = some f0)
    (hext : pyStartsWith (extract_text_from_file w.src) "Error:" = false)
    (hfresh : chunksOf st.db fid = [])
    (hfr : ∀ e ∈ st.db.embeddings, e.chunk_id < st.nextId) :
    ∃ st' news, process_file w fid st = .ok st' ∧
      chunksOf st'.db fid = news ∧
      news.map (fun c => c.text) = w.chunker (extract_text_from_file w.src) ∧
      news.map (fun c => c.chunk_number) =
        (List.range (w.chunker (extract_text_from_file w.src)).length).map (fun j => j + 1) := by
  obtain ⟨news, h1, h2, h3, h4, h5, h6, h7, h8, h9⟩ :=
    process_file_run w fid st hok f0 hf0 hext hfr
  exact ⟨pfOkState w fid st, news, h1, h3, h4, h5⟩

/-- Witness for C4: the concrete single-chunk ingestion run. -/
theorem fresh_ingest_chunk_numbering_witness :
    pyFirstFile baseState.db 1 = some ⟨1, "doc.txt", "Pending"⟩ ∧
    pyStartsWith (extract_text_from_file okWorld.src) "Error:" = false ∧
    chunksOf baseState.db 1 = [] ∧
    ∃ st' news, process_file okWorld 1 baseState = .ok st' ∧
      chunksOf st'.db 1 = news ∧
      news.map (fun c => c.text) = okWorld.chunker (extract_text_from_file okWorld.src) ∧
      news.map (fun c => c.chunk_number) =
        (List.range (okWorld.chunker (extract_text_from_file okWorld.src)).length).map
          (fun j => j + 1) :=
  ⟨by decide, by decide, by decide,
    fresh_ingest_chunk_numbering okWorld 1 baseState (fun _ => rfl) ⟨1, "doc.txt", "Pending"⟩
      (by decide) (by decide) (by decide) (by decide)⟩

/-- C3: embedding failures are per-chunk and non-fatal.  On a successful
run, every chunker segment is persisted as a chunk row (in order), a chunk
ends up with an embedding exactly when its embedding call returned a
truthy vector - so a raised call or a None return leaves that chunk with
no embedding while the others keep theirs - and the document still ends
with status Embedded. -/
theorem embedding_failures_are_per_chunk_nonfatal (w : World) (fid : Nat) (st : PState)
    (hok : ∀ n, w.commitOk n = true)
    (f0 : FileRec) (hf0 : pyFirstFile st.db fid = some f0)
    (hext : pyStartsWith (extract_text_from_file w.src) "Error:" = false)
    (hfr : ∀ e ∈ st.db.embeddings, e.chunk_id < st.nextId) :
    ∃ st' news, process_file w fid st = .ok st' ∧
      statusOf st'.db fid = some "Embedded" ∧
      chunksOf st'.db fid = news ∧
      news.map (fun c => c.text) = w.chunker (extract_text_from_file w.src) ∧
      ∀ j (hj : j < news.length),
        hasEmbeddingFor st'.db (news.get ⟨j, hj⟩).id
          = embedOk (w.embed ((news.get ⟨j, hj⟩).text)) := by
  obtain ⟨news, h1, h2, h3, h4, h5, h6, h7, h8, h9⟩ :=
    process_file_run w fid st hok f0 hf0 hext hfr
  exact ⟨pfOkState w fid st, news, h1, h2, h3, h4, h6⟩

/-- The 2-of-3 scenario world: three chunks, the embedding call raises on
the second and succeeds on the others. -/
def threeChunkWorld : World :=
  ⟨txtSrc, fun _ => ["c1", "c2", "c3"], fun _ => 1,
    fun s => if s == "c2" then .raised else .success [1], fun _ => true⟩

/-- Witness for C3 at the chunk-2-of-3-fails scenario. -/
theorem embedding_failures_nonfatal_witness :
    pyFirstFile baseState.db 1 = some ⟨1, "doc.txt", "Pending"⟩ ∧
    pyStartsWith (extract_text_from_file threeChunkWorld.src) "Error:" = false ∧
    ∃ st' news, process_file threeChunkWorld 1 baseState = .ok st' ∧
      statusOf st'.db 1 = some "Embedded" ∧
      chunksOf st'.db 1 = news ∧
      news.map (fun c => c.text)
        = threeChunkWorld.chunker (extract_text_from_file threeChunkWorld.src) ∧
      ∀ j (hj : j < news.length),
        hasEmbeddingFor st'.db (news.get ⟨j, hj⟩).id
          = embedOk (threeChunkWorld.embed ((news.get ⟨j, hj⟩).text)) :=
  ⟨by decide, by decide,
    embedding_failures_are_per_chunk_nonfatal threeChunkWorld 1 baseState (fun _ => rfl)
      ⟨1, "doc.txt", "Pending"⟩ (by decide) (by decide) (by decide)⟩

/-- C2: reprocessing a document that already has chunks and embeddings
deletes the embeddings before the chunks (purgeFileData performs the
deletions in that order, mirroring the source); afterwards no embedding
row references any of the document's deleted chunk ids, referential
integrity is preserved, and the fresh chunk rows are numbered exactly
1..N-edge for the new chunker output. -/
theorem re_process_file_no_orphans_fresh_numbering (w : World) (fid : Nat) (st : PState)
    (hok : ∀ n, w.commitOk n = true)
    (f0 : FileRec) (hf0 : pyFirstFile st.db fid = some f0)
    (hext : pyStartsWith (extract_text_from_file w.src) "Error:" = false)
    (hint : Integrity st.db)
    (hfr : ∀ e ∈ st.db.embeddings, e.chunk_id < st.nextId)
    (hcfr : ∀ c ∈ st.db.chunks, c.id < st.nextId) :
    ∃ st', re_process_file w fid st = .ok st' ∧
      Integrity st'.db ∧
      (∀ e ∈ st'.db.embeddings, e.chunk_id ∉ (chunksOf st.db fid).map (fun c => c.id)) ∧
      (chunksOf st'.db fid).map (fun c => c.chunk_number) =
        (List.range (w.chunker (extract_text_from_file w.src)).length).map (fun j => j + 1) := by
  have hfR : pyFirstFile (rpStage1 st fid).db fid = some f0 := by
    show pyFirstFile (purgeFileData st fid).db fid = some f0
    rw [pyFirstFile_eq_of_files fid (purgeFileData_db_files st fid), hf0]
  have hRnextId : (rpStage1 st fid).nextId = st.nextId := purgeFileData_nextId st fid
  have hRmem : ∀ e : EmbeddingRec, e ∈ (rpStage1 st fid).db.embeddings ↔
      e ∈ st.db.embeddings ∧ e.chunk_id ∉ (chunksOf st.db fid).map (fun c => c.id) :=
    fun e => purgeFileData_embeddings_mem st fid e
  have hfrR : ∀ e ∈ (rpStage1 st fid).db.embeddings, e.chunk_id < (rpStage1 st fid).nextId := by
    intro e he
    rw [hRnextId]
    exact hfr e ((hRmem e).mp he).1
  obtain ⟨news, hpe, hstat, hchunks, htexts, hnums, hembed, hmodel, hmemb, hintp⟩ :=
    process_file_run w fid (rpStage1 st fid) hok f0 hfR hext hfrR
  refine ⟨pfOkState w fid (rpStage1 st fid),
    re_process_file_ok_eq w fid st hok f0 hf0 hext, ?_, ?_, ?_⟩
  · apply hintp
    show Integrity (purgeFileData st fid).db
    exact purgeFileData_integrity st fid hint
  · intro e he
    rcases hmemb e he with ⟨heR, _⟩ | hge
    · exact ((hRmem e).mp heR).2
    · rw [hRnextId] at hge
      intro hmem
      obtain ⟨c, hcmem, hcid⟩ := List.mem_map.mp hmem
      have hclt : c.id < st.nextId := hcfr c (List.mem_filter.mp hcmem).1
      omega
  · rw [hchunks]
    exact hnums

/-- A concrete state with prior chunks and embeddings for two documents. -/
def reproState : PState :=
  ⟨⟨[⟨1, "doc.txt", "Embedded"⟩, ⟨2, "other.txt", "Embedded"⟩],
    [⟨5, 1, "old", 3, 1⟩, ⟨6, 1, "other", 3, 2⟩],
    [⟨7, 5, [2], "text-embedding-ada-002"⟩, ⟨8, 6, [3], "text-embedding-ada-002"⟩]⟩, 0, 10⟩

/-- Witness for C2 at a concrete reprocessing run over existing rows. -/
theorem re_process_no_orphans_witness :
    pyFirstFile reproState.db 1 = some ⟨1, "doc.txt", "Embedded"⟩ ∧
    Integrity reproState.db ∧
    (∀ e ∈ reproState.db.embeddings, e.chunk_id < reproState.nextId) ∧
    (∀ c ∈ reproState.db.chunks, c.id < reproState.nextId) ∧
    ∃ st', re_process_file okWorld 1 reproState = .ok st' ∧
      Integrity st'.db ∧
      (∀ e ∈ st'.db.embeddings, e.chunk_id ∉ (chunksOf reproState.db 1).map (fun c => c.id)) ∧
      (chunksOf st'.db 1).map (fun c => c.chunk_number) =
        (List.range (okWorld.chunker (extract_text_from_file okWorld.src)).length).map
          (fun j => j + 1) :=
  ⟨by decide, by unfold Integrity; decide, by decide, by decide,
    re_process_file_no_orphans_fresh_numbering okWorld 1 reproState (fun _ => rfl)
      ⟨1, "doc.txt", "Embedded"⟩ (by decide) (by decide) (by unfold Integrity; decide)
      (by decide) (by decide)⟩

/-- A sum of squares is non-negative. -/
lemma sumSq_nonneg (l : List ℝ) : 0 ≤ sumSq l := by
  apply List.sum_nonneg
  intro x hx
  obtain ⟨y, _, rfl⟩ := List.mem_map.mp hx
  exact sq_nonneg y

/-- Dividing every entry by m divides the sum of squares by m squared. -/
lemma sumSq_map_div (l : List ℝ) (m : ℝ) :
    sumSq (l.map (fun x => x / m)) = sumSq l / m ^ 2 := by
  induction l with
  | nil => simp [sumSq]
  | cons x xs ih =>
    simp [sumSq, div_pow, add_div] at ih ⊢
    rw [ih]

/-- Sums of squares add over list concatenation. -/
lemma sumSq_append (l1 l2 : List ℝ) : sumSq (l1 ++ l2) = sumSq l1 + sumSq l2 := by
  simp [sumSq, List.sum_append]

/-- The mock embedding always has the requested dimensionality. -/
lemma get_mock_embedding_length (rand : String → Nat → ℝ) (t : String) (n : Nat) :
    (get_mock_embedding rand t n).length = n := by
  simp [get_mock_embedding, mockRaw]

/-- Whenever the raw draw vector is not identically zero, L2-normalising it
yields a vector of squared norm exactly one. -/
lemma get_mock_embedding_norm (rand : String → Nat → ℝ) (t : String) (n : Nat)
    (h : sumSq (mockRaw rand t n) ≠ 0) :
    sumSq (get_mock_embedding rand t n) = 1 := by
  show sumSq ((mockRaw rand t n).map
      (fun x => x / Real.sqrt (sumSq (mockRaw rand t n)))) = 1
  rw [sumSq_map_div, Real.sq_sqrt (sumSq_nonneg _), div_self h]

/-- C6: the deterministic (mock) embedding strategy is deterministic and
idempotent - identical seed texts give identical vectors, since the draw
stream is a pure function of the seed - the vector has dimensionality
1536, and when the raw draws are not all zero (with the real uniform
draws this is the only reachable case; all-zero draws would make the
Python code divide by zero rather than return) its L2 norm is exactly 1
in the idealised real arithmetic. -/
theorem get_mock_embedding_deterministic_unit_norm (rand : String → Nat → ℝ)
    (t₁ t₂ : String) (heq : t₁ = t₂)
    (hS : sumSq (mockRaw rand t₁ 1536) ≠ 0) :
    get_mock_embedding rand t₁ 1536 = get_mock_embedding rand t₂ 1536 ∧
    (get_mock_embedding rand t₁ 1536).length = 1536 ∧
    sumSq (get_mock_embedding rand t₁ 1536) = 1 :=
  ⟨by rw [heq], get_mock_embedding_length rand t₁ 1536,
    get_mock_embedding_norm rand t₁ 1536 hS⟩

/-- A concrete draw stream in which every draw is 1. -/
def constRand : String → Nat → ℝ := fun _ _ => 1

/-- The sum of squares of n constant-1 draws is n. -/
lemma sumSq_constRand (t : String) (n : Nat) : sumSq (mockRaw constRand t n) = n := by
  induction n with
  | zero => simp [mockRaw, sumSq]
  | succ k ih =>
    have hsplit : mockRaw constRand t (k + 1) = mockRaw constRand t k ++ [1] := by
      unfold mockRaw
      rw [List.range_succ, List.map_append]
      rfl
    rw [hsplit, sumSq_append, ih]
    show (k : ℝ) + sumSq [1] = ((k + 1 : ℕ) : ℝ)
    simp [sumSq]

/-- Witness for C6 at the constant draw stream and seed text "a". -/
theorem get_mock_embedding_unit_norm_witness :
    sumSq (mockRaw constRand "a" 1536) ≠ 0 ∧
    sumSq (get_mock_embedding constRand "a" 1536) = 1 := by
  have hS : sumSq (mockRaw constRand "a" 1536) ≠ 0 := by
    rw [sumSq_constRand]
    norm_num
  exact ⟨hS, (get_mock_embedding_deterministic_unit_norm constRand "a" "a" rfl hS).2.2⟩

/-- Truncation to the first 8000 characters is the identity on shorter
texts, so the conditional truncation step always equals the plain slice. -/
lemma pyTrunc_eq_slice (t : String) : pyTrunc t = pySlice 8000 t := by
  unfold pyTrunc
  split
  · rfl
  · rename_i h
    unfold pySlice
    have hle : t.data.length ≤ 8000 := by omega
    rw [List.take_of_length_le hle]

/-- C8: the embedding provider on the deterministic-strategy path returns
None exactly for empty or whitespace-only input; for every other input it
returns the mock vector of the truncated text, of dimensionality 1536,
with unit norm whenever the raw draws are not all zero. -/
theorem get_embedding_contract (rand : String → Nat → ℝ) (t : String) :
    (get_embedding rand t = none ↔ pyIsBlank t = true) ∧
    (pyIsBlank t = false →
      get_embedding rand t = some (get_mock_embedding rand (pyTrunc t) 1536) ∧
      (get_mock_embedding rand (pyTrunc t) 1536).length = 1536 ∧
      (sumSq (mockRaw rand (pyTrunc t) 1536) ≠ 0 →
        sumSq (get_mock_embedding rand (pyTrunc t) 1536) = 1)) := by
  by_cases hb : pyIsBlank t = true
  · refine ⟨by simp [get_embedding, hb], fun hfalse => ?_⟩
    rw [hb] at hfalse
    cases hfalse
  · have hb2 : pyIsBlank t = false := by simpa using hb
    exact ⟨by simp [get_embedding, hb2],
      fun _ => ⟨by simp [get_embedding, hb2], get_mock_embedding_length rand (pyTrunc t) 1536,
        fun hS => get_mock_embedding_norm rand (pyTrunc t) 1536 hS⟩⟩

/-- Witness for C8 at the non-blank text "a". -/
theorem get_embedding_contract_witness :
    pyIsBlank "a" = false ∧
    get_embedding constRand "a" = some (get_mock_embedding constRand (pyTrunc "a") 1536) ∧
    sumSq (mockRaw constRand (pyTrunc "a") 1536) ≠ 0 ∧
    sumSq (get_mock_embedding constRand (pyTrunc "a") 1536) = 1 := by
  have hb : pyIsBlank "a" = false := by decide
  have hS : sumSq (mockRaw constRand (pyTrunc "a") 1536) ≠ 0 := by
    rw [sumSq_constRand]
    norm_num
  obtain ⟨_, h2⟩ := get_embedding_contract constRand "a"
  obtain ⟨he, _, hn⟩ := h2 hb
  exact ⟨hb, he, hS, hn hS⟩

/-- A text of 8001 whitespace characters. -/
def blankLong : String := ⟨List.replicate 8001 ' '⟩

/-- A text of 8000 whitespace characters followed by one letter. -/
def almostBlankLong : String := ⟨List.replicate 8000 ' ' ++ ['a']⟩

/-- Counterexample to C7 as stated: two texts that both exceed 8000
characters and share their first 8000 characters, yet get_embedding
returns None for one (whitespace-only, rejected before the truncation
step) and a vector for the other. -/
theorem get_embedding_truncation_claim_fails :
    8000 < blankLong.data.length ∧
    8000 < almostBlankLong.data.length ∧
    pySlice 8000 blankLong = pySlice 8000 almostBlankLong ∧
    get_embedding constRand blankLong ≠ get_embedding constRand almostBlankLong := by
  have hlen1 : blankLong.data.length = 8001 := by
    show (List.replicate 8001 ' ').length = 8001
    rw [List.length_replicate]
  have hlen2 : almostBlankLong.data.length = 8001 := by
    show (List.replicate 8000 ' ' ++ ['a']).length = 8001
    rw [List.length_append, List.length_replicate]
    rfl
  have hb1 : pyIsBlank blankLong = true := by
    show (List.replicate 8001 ' ').all isPySpace = true
    rw [List.all_eq_true]
    intro x hx
    rw [List.eq_of_mem_replicate hx]
    decide
  have hb2 : pyIsBlank almostBlankLong = false := by
    show (List.replicate 8000 ' ' ++ ['a']).all isPySpace = false
    rw [List.all_append]
    have ha : (['a'] : List Char).all isPySpace = false := by decide
    rw [ha, Bool.and_false]
  refine ⟨by omega, by omega, ?_, ?_⟩
  · have hdata : (List.replicate 8001 ' ').take 8000
        = (List.replicate 8000 ' ' ++ ['a']).take 8000 := by
      rw [List.take_replicate, List.take_append_eq_append_take,
        List.take_of_length_le (le_of_eq (List.length_replicate 8000 ' ')),
        List.length_replicate, Nat.sub_self, List.take_zero, List.append_nil,
        min_eq_left (by norm_num : (8000 : Nat) ≤ 8001)]
    show (⟨(List.replicate 8001 ' ').take 8000⟩ : String)
      = ⟨(List.replicate 8000 ' ' ++ ['a']).take 8000⟩
    rw [hdata]
  · rw [show get_embedding constRand blankLong = none from by simp [get_embedding, hb1]]
    rw [show get_embedding constRand almostBlankLong
        = some (get_mock_embedding constRand (pyTrunc almostBlankLong) 1536)
      from by simp [get_embedding, hb2]]
    simp

/-- C7 (amended): for every pair of non-blank texts (not empty or
whitespace-only) sharing the same first 8000 characters, get_embedding
computes the vector from the first 8000 characters only and the two
results coincide; blank texts instead return None before truncation. -/
theorem get_embedding_truncation_for_nonblank (rand : String → Nat → ℝ) (t₁ t₂ : String)
    (h₁ : pyIsBlank t₁ = false) (h₂ : pyIsBlank t₂ = false)
    (hshare : pySlice 8000 t₁ = pySlice 8000 t₂) :
    get_embedding rand t₁ = some (get_mock_embedding rand (pySlice 8000 t₁) 1536) ∧
    get_embedding rand t₁ = get_embedding rand t₂ := by
  constructor
  · rw [show get_embedding rand t₁ = some (get_mock_embedding rand (pyTrunc t₁) 1536)
      from by simp [get_embedding, h₁]]
    rw [pyTrunc_eq_slice]
  · rw [show get_embedding rand t₁ = some (get_mock_embedding rand (pyTrunc t₁) 1536)
      from by simp [get_embedding, h₁]]
    rw [show get_embedding rand t₂ = some (get_mock_embedding rand (pyTrunc t₂) 1536)
      from by simp [get_embedding, h₂]]
    rw [pyTrunc_eq_slice, pyTrunc_eq_slice, hshare]

/-- Witness for the amended C7 at two concrete non-blank texts. -/
theorem get_embedding_truncation_witness :
    pyIsBlank "ab" = false ∧
    pySlice 8000 "ab" = pySlice 8000 "ab" ∧
    get_embedding constRand "ab" = get_embedding constRand "ab" :=
  ⟨by decide, rfl,
    (get_embedding_truncation_for_nonblank constRand "ab" "ab" (by decide) (by decide) rfl).2⟩
